import Mathlib

/-!
Shallow embedding of builtin/am.c (the builtin "git am" session state machine)
and proofs about its specification.  File contents are modelled as `List Char`
(one `Char` per byte of a text file), external collaborators (mailsplit,
mailinfo, git-apply, the object writer) as oracle functions in an `Env`
record, and the session directory as an explicit `Disk` record.
-/

namespace GitAm

/-- Predicate for the bytes matched by C `isspace` (ASCII). -/
def isspaceC (c : Char) : Bool :=
  c == ' ' || c == '\t' || c == '\n' || c == '\x0b' || c == '\x0c' || c == '\r'

/-- strbuf_rtrim: remove trailing whitespace. -/
def rtrim (s : List Char) : List Char := (s.reverse.dropWhile isspaceC).reverse

/-- Characters other than the line terminator. -/
def notNl (c : Char) : Bool := c != '\n'

/-- strbuf_getline with terminator a newline: returns `none` at end of input,
otherwise the line (terminator stripped, if present) and the rest. -/
def getline (s : List Char) : Option (List Char × List Char) :=
  if s = [] then none
  else some (s.takeWhile notNl, (s.dropWhile notNl).drop 1)

/-- Accumulator-based line splitter (the repeated strbuf_getline loop). -/
def toLinesAux : List Char → List Char → List (List Char)
  | acc, [] => [acc.reverse]
  | acc, c :: rest =>
    if c = '\n' then
      acc.reverse :: (match rest with | [] => [] | _ => toLinesAux [] rest)
    else
      toLinesAux (c :: acc) rest

/-- All lines of a file read by repeated strbuf_getline calls until EOF. -/
def toLines (s : List Char) : List (List Char) :=
  match s with
  | [] => []
  | _ => toLinesAux [] s

/-- skip_prefix: if the expected key starts the line, return what follows. -/
def stripKey : List Char → List Char → Option (List Char)
  | [], s => some s
  | _ :: _, [] => none
  | k :: ks, c :: cs => if k = c then stripKey ks cs else none

/-- firstline: the text of msg up to the first newline. -/
def firstline (s : List Char) : List Char := s.takeWhile notNl

/-- Numeric value of a run of decimal digits (strtol conversion step). -/
def digitsVal (ds : List Char) : Int :=
  ds.foldl (fun a c => a * 10 + ((c.toNat : Int) - 48)) 0

/-- strtol with base 10: skip leading whitespace, optional sign, then the
longest run of decimal digits; no digits means value 0. -/
def strtol10 (s : List Char) : Int :=
  match s.dropWhile isspaceC with
  | [] => 0
  | c :: r =>
    if c = '-' then - digitsVal (r.takeWhile Char.isDigit)
    else if c = '+' then digitsVal (r.takeWhile Char.isDigit)
    else digitsVal ((c :: r).takeWhile Char.isDigit)

/-- Input whose strtol conversion consumes no digit: after optional leading
whitespace and one optional sign, the next character is not a decimal digit. -/
def noLeadingDigits (s : List Char) : Bool :=
  match s.dropWhile isspaceC with
  | [] => true
  | c :: r =>
    if c = '-' ∨ c = '+' then
      match r with
      | [] => true
      | e :: _ => !e.isDigit
    else !c.isDigit

/-- Decimal digit characters of a natural number. -/
def natToChars (n : Nat) : List Char := Nat.toDigits 10 n

/-- printf %0*d: decimal text of an integer, zero padded to the given width
(the sign, when present, leads the padding). -/
def zeroPadInt (width : Nat) (i : Int) : List Char :=
  if i < 0 then
    let ds := natToChars i.natAbs
    '-' :: (List.replicate (width - (ds.length + 1)) '0' ++ ds)
  else
    let ds := natToChars i.toNat
    List.replicate (width - ds.length) '0' ++ ds

/-- printf %d: plain decimal text of an integer. -/
def intToChars (i : Int) : List Char := zeroPadInt 0 i

/-- Modelled from the spec: the single-quote escaping step of sq_quote_buf
(quote.c is not under src/): every literal single quote inside a value is
replaced by the sequence close-quote, backslash-escaped quote, open-quote. -/
def sq_escape (s : List Char) : List Char :=
  s.flatMap fun c => if c = '\'' then ['\'', '\\', '\'', '\''] else [c]

/-- Modelled from the spec: sq_quote_buf (quote.c is not under src/): the
value is wrapped in single quotes with every inner quote escaped. -/
def sq_quote (s : List Char) : List Char := '\'' :: (sq_escape s ++ ['\''])

/-- Modelled from the spec: scanning loop of sq_dequote (quote.c is not under
src/), already inside the opening quote.  A quote followed by end of input
closes the value; a quote followed by backslash, quote, quote is an escaped
quote; anything else after a quote is a parse error; end of input before a
closing quote is a parse error. -/
def sqBody : List Char → Option (List Char)
  | [] => none
  | c :: rest =>
    if c = '\'' then
      match rest with
      | [] => some []
      | '\\' :: '\'' :: '\'' :: rest3 => (sqBody rest3).map (fun t => '\'' :: t)
      | _ => none
    else (sqBody rest).map (fun t => c :: t)

/-- Modelled from the spec: sq_dequote (quote.c is not under src/): reverses
the quoting scheme of `sq_quote`, rejecting any malformed input. -/
def sq_dequote : List Char → Option (List Char)
  | '\'' :: rest => sqBody rest
  | _ => none

/-- write_author_script: the exact text written to the author-script file. -/
def author_script_text (n e d : List Char) : List Char :=
  "GIT_AUTHOR_NAME=".data ++ sq_quote n ++ '\n' ::
  ("GIT_AUTHOR_EMAIL=".data ++ sq_quote e ++ '\n' ::
  ("GIT_AUTHOR_DATE=".data ++ sq_quote d ++ ['\n']))

/-- read_author_script, acting on the contents of the author-script file:
three strbuf_getline calls, each line stripped of its expected key and
dequoted, then a check that nothing follows the third line. -/
def read_author_script_content (s : List Char) :
    Option (List Char × List Char × List Char) :=
  (getline s).bind fun p1 =>
  (stripKey "GIT_AUTHOR_NAME=".data p1.1).bind fun v1 =>
  (sq_dequote v1).bind fun n =>
  (getline p1.2).bind fun p2 =>
  (stripKey "GIT_AUTHOR_EMAIL=".data p2.1).bind fun v2 =>
  (sq_dequote v2).bind fun e =>
  (getline p2.2).bind fun p3 =>
  (stripKey "GIT_AUTHOR_DATE=".data p3.1).bind fun v3 =>
  (sq_dequote v3).bind fun d =>
  if p3.2 = [] then some (n, e, d) else none

/-- is_empty_file: true iff the file has size zero or does not exist (`none`
models a stat failure with ENOENT). -/
def is_empty_file : Option Nat → Bool
  | none => true
  | some sz => sz == 0

/-- Characters allowed before the colon of an RFC2822-ish header field name:
the byte ranges 0x21 to 0x39 and 0x3B to 0x7E. -/
def headerCharOk (c : Char) : Bool :=
  (0x21 ≤ c.toNat && c.toNat ≤ 0x39) || (0x3B ≤ c.toNat && c.toNat ≤ 0x7E)

/-- The is_email per-character loop after the first character: header
characters continue the scan; the first non-header character is accepted
exactly when it is a colon (which ends the check for this line); running out
of characters ends the loop without failing. -/
def restOk : List Char → Bool
  | [] => true
  | c :: rest => if headerCharOk c then restOk rest else c == ':'

/-- The is_email check of one non-blank, non-indented line: the first
character must be a header character (a leading colon fails), then `restOk`. -/
def lineOk : List Char → Bool
  | [] => true
  | c :: rest => headerCharOk c && restOk rest

/-- The line loop of is_email: stop successfully at a blank (after rtrim)
line or end of file, skip indented folded lines, and otherwise require
`lineOk`. -/
def is_email_lines : List (List Char) → Bool
  | [] => true
  | l :: rest =>
    let t := rtrim l
    if t.isEmpty then true
    else if t.head? == some '\t' || t.head? == some ' ' then is_email_lines rest
    else lineOk t && is_email_lines rest

/-- is_email applied to the contents of a file. -/
def is_email (content : List Char) : Bool := is_email_lines (toLines content)

/-- Result of reading one state file: present with contents, absent (ENOENT),
or a read failure of any other kind. -/
inductive ReadRes where
  | missing
  | ok (content : List Char)
  | ioerr
deriving DecidableEq

/-- read_state_file: the strbuf is reset and filled from the file; an ENOENT
leaves it empty (the -1 return is ignored by am_load); any other read error
is fatal (`none`); with trim set, trailing whitespace is removed. -/
def read_state_file (r : ReadRes) (trim : Bool) : Option (List Char) :=
  match r with
  | .ioerr => none
  | .missing => some []
  | .ok c => some (if trim then rtrim c else c)

/-- The in-memory am_state fields the session logic manipulates (the state
directory path is left implicit; file names are fixed). -/
structure AmState where
  cur : Int
  last : Int
  author_name : List Char
  author_email : List Char
  author_date : List Char
  msg : List Char
  prec : Nat
deriving DecidableEq

/-- An am_state whose string buffers are all empty. -/
def cleanState (cur last : Int) (prec : Nat) : AmState :=
  ⟨cur, last, [], [], [], [], prec⟩

/-- The session files am_load reads. -/
structure LoadFiles where
  next : ReadRes
  last : ReadRes
  authorScript : Option (List Char)
  finalCommit : ReadRes
deriving DecidableEq

/-- am_load: read `next` and `last` through read_state_file with trimming and
convert them with strtol, parse the author script when the file exists (a
parse failure is fatal), and read the `final-commit` message file (absence
leaves the message empty). -/
def am_load (st : AmState) (f : LoadFiles) : Option AmState :=
  (read_state_file f.next true).bind fun nsb =>
  (read_state_file f.last true).bind fun lsb =>
  (match f.authorScript with
   | none => some (st.author_name, st.author_email, st.author_date)
   | some content => read_author_script_content content).bind fun a =>
  (read_state_file f.finalCommit false).bind fun m =>
  some { st with cur := strtol10 nsb, last := strtol10 lsb,
                 author_name := a.1, author_email := a.2.1,
                 author_date := a.2.2, msg := m }

/-- One commit created by do_commit: author identity plus message.  Creation
of the tree and commit objects and the HEAD update are delegated externally;
the model records the data the Commit Builder passes to them. -/
structure Commit where
  author_name : List Char
  author_email : List Char
  author_date : List Char
  msg : List Char
deriving DecidableEq

/-- The on-disk state the session logic owns: the session directory flag, the
tracked session files inside it, and the commits created so far. -/
structure Disk where
  dirExists : Bool
  next : Option (List Char)
  last : Option (List Char)
  authorScript : Option (List Char)
  finalCommit : Option (List Char)
  commits : List Commit
deriving DecidableEq

/-- am_destroy: recursively remove the session directory (commits live in the
object store and survive). -/
def am_destroy (d : Disk) : Disk :=
  { dirExists := false, next := none, last := none, authorScript := none,
    finalCommit := none, commits := d.commits }

/-- Filesystem operations performed by am_next, in order. -/
inductive FsEv where
  | writeNext (v : Int)
  | unlinkAuthorScript
  | unlinkFinalCommit
deriving DecidableEq

/-- Effect of one am_next filesystem operation on the disk. -/
def applyEv (d : Disk) : FsEv → Disk
  | .writeNext v => { d with next := some (intToChars v) }
  | .unlinkAuthorScript => { d with authorScript := none }
  | .unlinkFinalCommit => { d with finalCommit := none }

/-- The ordered list of filesystem operations am_next performs: first write
the incremented `next`, then unlink the author script, then unlink the
message file. -/
def am_next_events (st : AmState) : List FsEv :=
  [.writeNext (st.cur + 1), .unlinkAuthorScript, .unlinkFinalCommit]

/-- am_next: increment the patch pointer, persist `next`, reset the in-memory
buffers and delete both per-patch transient files. -/
def am_next (st : AmState) (disk : Disk) : AmState × Disk :=
  ({ st with cur := st.cur + 1, author_name := [], author_email := [],
             author_date := [], msg := [] },
   (am_next_events st).foldl applyEv disk)

/-- Oracle description of the external collaborators and configuration for
one run: whether each numbered patch file exists, whether spawning mailinfo
succeeds, the contents mailinfo writes to the info and msg files, the size of
the body file it writes (`none` models ENOENT), whether git-apply succeeds,
whether the commit-building externals succeed, the advice.amworkdir
configuration (`none` when unset), and the external stripspace function. -/
structure Env where
  patchExists : Int → Bool
  mailinfoOk : Int → Bool
  info : Int → List Char
  msgFile : Int → Option (List Char)
  bodySize : Int → Option Nat
  applyOk : Int → Bool
  commitOk : Int → Bool
  amworkdir : Option Bool
  stripspace : List Char → List Char

/-- The four fields parse_patch accumulates from the info file. -/
structure Fields where
  name : List Char
  email : List Char
  date : List Char
  msg : List Char
deriving DecidableEq

/-- Appending one more info value to a field: a newline joins it to any
previous contents. -/
def appendField (cur x : List Char) : List Char :=
  if cur = [] then x else cur ++ '\n' :: x

/-- Processing of one info line: the first matching key of Subject, Author,
Email, Date appends its value to the corresponding field. -/
def extract_line (f : Fields) (l : List Char) : Fields :=
  match stripKey "Subject: ".data l with
  | some x => { f with msg := appendField f.msg x }
  | none =>
    match stripKey "Author: ".data l with
    | some x => { f with name := appendField f.name x }
    | none =>
      match stripKey "Email: ".data l with
      | some x => { f with email := appendField f.email x }
      | none =>
        match stripKey "Date: ".data l with
        | some x => { f with date := appendField f.date x }
        | none => f

/-- The info-file reading loop of parse_patch. -/
def extract_fold (f : Fields) (ls : List (List Char)) : Fields :=
  ls.foldl extract_line f

/-- The fields extracted for patch `k` starting from empty buffers. -/
def extractAt (env : Env) (k : Int) : Fields :=
  extract_fold ⟨[], [], [], []⟩ (toLines (env.info k))

/-- The author name some mail clients use for internal folder data; such a
patch is skipped. -/
def sentinelName : List Char := "Mail System Internal Data".data

/-- Diagnostic of the die call when spawning mailinfo fails. -/
def mailinfoFailMsg : List Char := "could not parse patch".data

/-- Diagnostic of the die call for an empty (or missing) patch body. -/
def emptyPatchMsg : List Char :=
  ("Patch is empty. Was it split wrong?\n" ++
   "If you would prefer to skip this patch, instead run \"git am --skip\".\n" ++
   "To restore the original branch and stop patching run \"git am --abort\".").data

/-- Diagnostic of the die call when the msg file cannot be read back
(die_errno with the msg path; the path formatting is abstracted). -/
def msgReadFailMsg : List Char := "could not read msg".data

/-- Diagnostic representing the fatal failures inside do_commit (write-tree,
commit-tree or the HEAD update; collapsed to one message). -/
def commitFailMsg : List Char := "failed to write commit object".data

/-- The outcome of parse_patch for one patch. -/
inductive ParseRes where
  | fatal (msg : List Char)
  | skip
  | ok (name email date msg : List Char)
deriving DecidableEq

/-- parse_patch: run mailinfo (spawn failure is fatal), fold the info lines
into the state buffers, skip the patch when the accumulated author name is
the internal-data sentinel, die when the stripped body file is empty or
missing, then compose the commit message from the subject, a blank line and
the msg file contents, passed through stripspace. -/
def parse_patch (env : Env) (k : Int) (st : AmState) : ParseRes :=
  if env.mailinfoOk k = false then .fatal mailinfoFailMsg
  else
    let f := extract_fold ⟨st.author_name, st.author_email, st.author_date, st.msg⟩
               (toLines (env.info k))
    if f.name = sentinelName then .skip
    else if is_empty_file (env.bodySize k) then .fatal emptyPatchMsg
    else
      match env.msgFile k with
      | none => .fatal msgReadFailMsg
      | some m => .ok f.name f.email f.date
                    (env.stripspace (f.msg ++ '\n' :: '\n' :: m))

/-- The commit message composed for patch `k` from empty buffers. -/
def composedMsg (env : Env) (k : Int) : List Char :=
  env.stripspace ((extractAt env k).msg ++ '\n' :: '\n' :: ((env.msgFile k).getD []))

/-- msgnum: the current patch number zero padded to prec digits. -/
def msgnum (st : AmState) : List Char := zeroPadInt st.prec st.cur

/-- The outcome of am_run: normal completion (exit 0), a halt after a failed
application (exit 128, reporting the padded patch number, the first line of
the message, and whether the retained-patch-location hint was printed), or a
die call (exit 128). -/
inductive RunResult where
  | success (disk : Disk)
  | applyFailed (num firstLine : List Char) (hint : Bool) (disk : Disk)
  | fatal (msg : List Char) (disk : Disk)
deriving DecidableEq

/-- Process exit code of each outcome (die and the explicit halt both use the
fixed code 128). -/
def exitCode : RunResult → Nat
  | .success _ => 0
  | .applyFailed _ _ _ _ => 128
  | .fatal _ _ => 128

/-- am_run: the sequencer loop.  While `cur ≤ last`: a missing patch file is
skipped, parse_patch classifies the patch, the author script and message
file are persisted before git-apply runs, a failed application halts with the
report (the retained-patch-location hint is printed exactly when
advice.amworkdir is configured false), a successful application commits and
advances.  After the loop the session directory is destroyed. -/
def am_run (env : Env) (st : AmState) (disk : Disk) : RunResult :=
  if h1 : st.last < st.cur then .success (am_destroy disk)
  else if h2 : env.patchExists st.cur = false then
    am_run env (am_next st disk).1 (am_next st disk).2
  else
    match parse_patch env st.cur st with
    | .fatal m => .fatal m disk
    | .skip => am_run env (am_next st disk).1 (am_next st disk).2
    | .ok n e d m =>
      let st1 : AmState := { st with author_name := n, author_email := e,
                                     author_date := d, msg := m }
      let disk1 : Disk := { disk with authorScript := some (author_script_text n e d),
                                      finalCommit := some m }
      if env.applyOk st.cur = false then
        .applyFailed (msgnum st1) (firstline m)
          (decide (env.amworkdir = some false)) disk1
      else if env.commitOk st.cur = false then
        .fatal commitFailMsg disk1
      else
        am_run env
          (am_next st1 { disk1 with commits := disk1.commits ++ [⟨n, e, d, m⟩] }).1
          (am_next st1 { disk1 with commits := disk1.commits ++ [⟨n, e, d, m⟩] }).2
termination_by (st.last + 1 - st.cur).toNat
decreasing_by
  all_goals simp [am_next]
  all_goals omega

/-- A patch index that makes it all the way through one loop iteration:
present, extractable, not the sentinel, nonempty body, readable msg file,
applied and committed successfully. -/
def passesAt (env : Env) (j : Int) : Bool :=
  env.patchExists j && env.mailinfoOk j &&
  !((extractAt env j).name == sentinelName) &&
  !(is_empty_file (env.bodySize j)) && (env.msgFile j).isSome &&
  env.applyOk j && env.commitOk j

/-- A patch index whose iteration completes without halting the run: the
patch file is missing, or it is the sentinel skip, or it fully passes. -/
def handledAt (env : Env) (j : Int) : Bool :=
  !(env.patchExists j) ||
  (env.patchExists j && env.mailinfoOk j && ((extractAt env j).name == sentinelName)) ||
  passesAt env j

/-- The commit created for patch `j` when it passes. -/
def commitAt (env : Env) (j : Int) : Commit :=
  ⟨(extractAt env j).name, (extractAt env j).email, (extractAt env j).date,
   composedMsg env j⟩

/-- Commits created by the next `n` loop iterations starting at index `c`. -/
def successCommitsN (env : Env) (c : Int) : Nat → List Commit
  | 0 => []
  | n + 1 =>
    (if passesAt env c then [commitAt env c] else []) ++
    successCommitsN env (c + 1) n

/-- Commits created by the loop iterations for indices in [c, k). -/
def successCommits (env : Env) (c k : Int) : List Commit :=
  successCommitsN env c (k - c).toNat

/-- Sample author name containing a single quote and a backslash. -/
def witName : List Char := ['O', '\'', 'B', 'r', '\\', 'i', 'e', 'n']

/-- Sample author email. -/
def witEmail : List Char := "obrien@example.com".data

/-- Sample author date containing an exclamation mark. -/
def witDate : List Char := "Mon, 17 Sep 2001!".data

/-- Sample author-script file contents for the sample identity. -/
def witScript : List Char := author_script_text witName witEmail witDate

/-- Sample info-file contents written by mailinfo for an ordinary patch. -/
def sampleInfo : List Char :=
  ("Subject: hello world\n" ++
   "Author: Alice\n" ++
   "Email: alice@example.com\n" ++
   "Date: Mon Sep 17 00:00:00 2001\n").data

/-- Sample info-file contents whose author is the internal-data sentinel. -/
def sentinelInfo : List Char :=
  ("Subject: internal data\n" ++
   "Author: Mail System Internal Data\n" ++
   "Email: folder@internal\n" ++
   "Date: Mon Sep 17 00:00:00 2001\n").data

/-- Environment where every patch exists and extracts fine but git-apply
fails; advice.amworkdir is unset. -/
def env0 : Env :=
  { patchExists := fun _ => true
    mailinfoOk := fun _ => true
    info := fun _ => sampleInfo
    msgFile := fun _ => some "patch body text".data
    bodySize := fun _ => some 5
    applyOk := fun _ => false
    commitOk := fun _ => true
    amworkdir := none
    stripspace := fun s => s }

/-- Environment whose patches carry the sentinel author name. -/
def envS : Env := { env0 with info := fun _ => sentinelInfo, applyOk := fun _ => true }

/-- Environment whose stripped patch body file is empty. -/
def envE : Env := { env0 with bodySize := fun _ => some 0 }

/-- Environment whose stripped patch body file is missing (ENOENT). -/
def envM : Env := { env0 with bodySize := fun _ => none }

/-- A fresh one-patch session directory as am_setup leaves it. -/
def disk0 : Disk :=
  { dirExists := true, next := some (intToChars 1), last := some (intToChars 1),
    authorScript := none, finalCommit := none, commits := [] }

/-- Sample loaded session files with a malformed `next` counter. -/
def badLoad : LoadFiles :=
  { next := .ok "abc".data, last := .ok ['3'], authorScript := none,
    finalCommit := .missing }

theorem takeWhile_no_nl (s : List Char) : '\n' ∉ s.takeWhile notNl := by
  induction s with
  | nil => simp
  | cons c t ih =>
    rw [List.takeWhile_cons]
    by_cases h : notNl c
    · rw [if_pos h]
      intro hm
      rcases List.mem_cons.mp hm with h1 | h1
      · simp [notNl, bne_iff_ne] at h
        exact h h1.symm
      · exact ih h1
    · rw [if_neg h]
      simp

theorem dropWhile_nl_shape (s : List Char) :
    s.dropWhile notNl = [] ∨ ∃ r, s.dropWhile notNl = '\n' :: r := by
  induction s with
  | nil => left; rfl
  | cons c t ih =>
    rw [List.dropWhile_cons]
    by_cases h : notNl c
    · rw [if_pos h]
      exact ih
    · rw [if_neg h]
      right
      refine ⟨t, ?_⟩
      have hc : c = '\n' := by simpa [notNl, bne_iff_ne] using h
      rw [hc]

theorem takeWhile_append_nl (l r : List Char) (h : '\n' ∉ l) :
    (l ++ '\n' :: r).takeWhile notNl = l := by
  induction l with
  | nil => simp [List.takeWhile_cons, notNl]
  | cons c t ih =>
    simp only [List.mem_cons, not_or] at h
    obtain ⟨h1, h2⟩ := h
    have hc : notNl c = true := by
      simp only [notNl, bne_iff_ne, ne_eq, decide_eq_true_eq]
      exact fun e => h1 e.symm
    rw [List.cons_append, List.takeWhile_cons, if_pos hc, ih h2]

theorem dropWhile_append_nl (l r : List Char) (h : '\n' ∉ l) :
    (l ++ '\n' :: r).dropWhile notNl = '\n' :: r := by
  induction l with
  | nil => simp [List.dropWhile_cons, notNl]
  | cons c t ih =>
    simp only [List.mem_cons, not_or] at h
    obtain ⟨h1, h2⟩ := h
    have hc : notNl c = true := by
      simp only [notNl, bne_iff_ne, ne_eq, decide_eq_true_eq]
      exact fun e => h1 e.symm
    rw [List.cons_append, List.dropWhile_cons, if_pos hc, ih h2]

theorem getline_app (l r : List Char) (h : '\n' ∉ l) :
    getline (l ++ '\n' :: r) = some (l, r) := by
  have hne : ¬(l ++ '\n' :: r = []) := by cases l <;> simp
  simp only [getline, if_neg hne, takeWhile_append_nl l r h, dropWhile_append_nl l r h,
    List.drop_one, List.tail_cons]

theorem getline_inv (s l r : List Char) (h : getline s = some (l, r)) :
    '\n' ∉ l ∧ (s = l ++ '\n' :: r ∨ (s = l ∧ r = [])) := by
  by_cases hs : s = []
  · rw [hs] at h
    simp [getline] at h
  · simp only [getline, if_neg hs, Option.some.injEq, Prod.mk.injEq] at h
    obtain ⟨h1, h2⟩ := h
    subst h1
    constructor
    · exact takeWhile_no_nl s
    · rcases dropWhile_nl_shape s with hd | ⟨r0, hd⟩
      · right
        constructor
        · conv_lhs => rw [← List.takeWhile_append_dropWhile (p := notNl) (l := s)]
          rw [hd, List.append_nil]
        · rw [← h2, hd]
          rfl
      · left
        rw [← h2, hd]
        conv_lhs => rw [← List.takeWhile_append_dropWhile (p := notNl) (l := s)]
        rw [hd]
        rfl

theorem stripKey_self (k : List Char) : ∀ v, stripKey k (k ++ v) = some v := by
  induction k with
  | nil => intro v; rfl
  | cons c ks ih => intro v; simp [stripKey, ih v]

theorem stripKey_inv (k : List Char) : ∀ s v, stripKey k s = some v → s = k ++ v := by
  induction k with
  | nil =>
    intro s v h
    simp only [stripKey, Option.some.injEq] at h
    simp [h]
  | cons c ks ih =>
    intro s v h
    cases s with
    | nil => simp [stripKey] at h
    | cons a t =>
      by_cases hac : c = a
      · subst hac
        simp only [stripKey, if_pos rfl] at h
        rw [List.cons_append, ih t v h]
      · simp [stripKey, hac] at h

theorem sq_escape_cons (c : Char) (t : List Char) :
    sq_escape (c :: t) =
      (if c = '\'' then ['\'', '\\', '\'', '\''] else [c]) ++ sq_escape t := by
  simp [sq_escape]

theorem sqBody_cons_ne (c : Char) (rest : List Char) (h : ¬(c = '\'')) :
    sqBody (c :: rest) = (sqBody rest).map (fun t => c :: t) := by
  rw [sqBody.eq_def]
  simp [h]

theorem sqBody_escape (s : List Char) : sqBody (sq_escape s ++ ['\'']) = some s := by
  induction s with
  | nil => rfl
  | cons c t ih =>
    by_cases hc : c = '\''
    · subst hc
      rw [sq_escape_cons, if_pos rfl]
      show sqBody ('\'' :: '\\' :: '\'' :: '\'' :: (sq_escape t ++ ['\''])) = _
      simp only [sqBody, if_pos rfl]
      rw [ih]
      rfl
    · rw [sq_escape_cons, if_neg hc, List.singleton_append, List.cons_append]
      rw [sqBody_cons_ne c _ hc, ih]
      rfl

theorem sq_dequote_quote (s : List Char) : sq_dequote (sq_quote s) = some s := by
  show sq_dequote ('\'' :: (sq_escape s ++ ['\''])) = some s
  rw [show sq_dequote ('\'' :: (sq_escape s ++ ['\''])) = sqBody (sq_escape s ++ ['\'']) from rfl]
  exact sqBody_escape s

theorem no_nl_sq_escape {s : List Char} (h : '\n' ∉ s) : '\n' ∉ sq_escape s := by
  intro hm
  rw [sq_escape, List.mem_flatMap] at hm
  obtain ⟨a, ha, hin⟩ := hm
  by_cases hq : a = '\''
  · rw [if_pos hq] at hin
    revert hin
    decide
  · rw [if_neg hq] at hin
    simp only [List.mem_singleton] at hin
    exact h (hin ▸ ha)

theorem no_nl_sq_quote {s : List Char} (h : '\n' ∉ s) : '\n' ∉ sq_quote s := by
  intro hm
  rw [sq_quote] at hm
  rcases List.mem_cons.mp hm with h1 | h1
  · exact absurd h1 (by decide)
  · rcases List.mem_append.mp h1 with h2 | h2
    · exact no_nl_sq_escape h h2
    · revert h2
      decide

theorem no_nl_author_line (key : List Char) (v : List Char)
    (hk : '\n' ∉ key) (hv : '\n' ∉ v) : '\n' ∉ key ++ sq_quote v := by
  intro hm
  rcases List.mem_append.mp hm with hx | hx
  · exact hk hx
  · exact no_nl_sq_quote hv hx

theorem author_roundtrip (n e d : List Char)
    (h1 : '\n' ∉ n) (h2 : '\n' ∉ e) (h3 : '\n' ∉ d) :
    read_author_script_content (author_script_text n e d) = some (n, e, d) := by
  have k1 : '\n' ∉ "GIT_AUTHOR_NAME=".data ++ sq_quote n :=
    no_nl_author_line _ n (by decide) h1
  have k2 : '\n' ∉ "GIT_AUTHOR_EMAIL=".data ++ sq_quote e :=
    no_nl_author_line _ e (by decide) h2
  have k3 : '\n' ∉ "GIT_AUTHOR_DATE=".data ++ sq_quote d :=
    no_nl_author_line _ d (by decide) h3
  rw [author_script_text, read_author_script_content]
  rw [getline_app _ _ k1]
  dsimp only [Option.bind]
  rw [stripKey_self]
  dsimp only [Option.bind]
  rw [sq_dequote_quote]
  dsimp only [Option.bind]
  rw [getline_app _ _ k2]
  dsimp only [Option.bind]
  rw [stripKey_self]
  dsimp only [Option.bind]
  rw [sq_dequote_quote]
  dsimp only [Option.bind]
  rw [getline_app _ _ k3]
  dsimp only [Option.bind]
  rw [stripKey_self]
  dsimp only [Option.bind]
  rw [sq_dequote_quote]
  dsimp only [Option.bind]
  rw [if_pos rfl]

/-- C2: for every triple of strings without embedded newlines, including
strings with single quotes, backslashes or other shell-special characters,
parsing the written author script with read_author_script returns the
original triple unchanged. -/
theorem write_read_author_script_roundtrip (n e d : List Char)
    (h1 : '\n' ∉ n) (h2 : '\n' ∉ e) (h3 : '\n' ∉ d) :
    read_author_script_content (author_script_text n e d) = some (n, e, d) :=
  author_roundtrip n e d h1 h2 h3

/-- Witness for C2 at a concrete identity containing a single quote, a
backslash and an exclamation mark. -/
theorem write_read_author_script_roundtrip_witness :
    '\n' ∉ witName ∧ '\n' ∉ witEmail ∧ '\n' ∉ witDate ∧
    read_author_script_content (author_script_text witName witEmail witDate) =
      some (witName, witEmail, witDate) :=
  ⟨by decide, by decide, by decide,
   write_read_author_script_roundtrip witName witEmail witDate
     (by decide) (by decide) (by decide)⟩

/-- C3: read_author_script succeeds only on input made of exactly three
lines, carrying the keys GIT_AUTHOR_NAME, GIT_AUTHOR_EMAIL, GIT_AUTHOR_DATE
in that fixed order, each value dequoting successfully, with no bytes after
the third line terminator; failure is the single value `none`. -/
theorem read_author_script_strict (s n e d : List Char)
    (h : read_author_script_content s = some (n, e, d)) :
    ∃ q1 q2 q3 t,
      s = "GIT_AUTHOR_NAME=".data ++ q1 ++ '\n' ::
          ("GIT_AUTHOR_EMAIL=".data ++ q2 ++ '\n' ::
           ("GIT_AUTHOR_DATE=".data ++ q3 ++ t)) ∧
      sq_dequote q1 = some n ∧ sq_dequote q2 = some e ∧ sq_dequote q3 = some d ∧
      '\n' ∉ q1 ∧ '\n' ∉ q2 ∧ '\n' ∉ q3 ∧ (t = [] ∨ t = ['\n']) := by
  rw [read_author_script_content] at h
  rw [Option.bind_eq_some] at h
  obtain ⟨p1, hg1, h⟩ := h
  rw [Option.bind_eq_some] at h
  obtain ⟨v1, hk1, h⟩ := h
  rw [Option.bind_eq_some] at h
  obtain ⟨n1, hq1, h⟩ := h
  rw [Option.bind_eq_some] at h
  obtain ⟨p2, hg2, h⟩ := h
  rw [Option.bind_eq_some] at h
  obtain ⟨v2, hk2, h⟩ := h
  rw [Option.bind_eq_some] at h
  obtain ⟨e1, hq2, h⟩ := h
  rw [Option.bind_eq_some] at h
  obtain ⟨p3, hg3, h⟩ := h
  rw [Option.bind_eq_some] at h
  obtain ⟨v3, hk3, h⟩ := h
  rw [Option.bind_eq_some] at h
  obtain ⟨d1, hq3, h⟩ := h
  by_cases hr : p3.2 = []
  · rw [if_pos hr, Option.some.injEq, Prod.mk.injEq, Prod.mk.injEq] at h
    obtain ⟨hn, he, hd⟩ := h
    subst hn; subst he; subst hd
    obtain ⟨hnl1, hs1⟩ := getline_inv s p1.1 p1.2 hg1
    obtain ⟨hnl2, hs2⟩ := getline_inv p1.2 p2.1 p2.2 hg2
    obtain ⟨hnl3, hs3⟩ := getline_inv p2.2 p3.1 p3.2 hg3
    have e1 : p1.1 = "GIT_AUTHOR_NAME=".data ++ v1 := stripKey_inv _ _ _ hk1
    have e2 : p2.1 = "GIT_AUTHOR_EMAIL=".data ++ v2 := stripKey_inv _ _ _ hk2
    have e3 : p3.1 = "GIT_AUTHOR_DATE=".data ++ v3 := stripKey_inv _ _ _ hk3
    have hv1 : '\n' ∉ v1 := fun hm => hnl1 (e1 ▸ List.mem_append_right _ hm)
    have hv2 : '\n' ∉ v2 := fun hm => hnl2 (e2 ▸ List.mem_append_right _ hm)
    have hv3 : '\n' ∉ v3 := fun hm => hnl3 (e3 ▸ List.mem_append_right _ hm)
    rcases hs1 with hs1 | ⟨hs1, hp1⟩
    · rcases hs2 with hs2 | ⟨hs2, hp2⟩
      · rcases hs3 with hs3 | ⟨hs3, hp3⟩
        · refine ⟨v1, v2, v3, ['\n'], ?_, hq1, hq2, hq3, hv1, hv2, hv3, Or.inr rfl⟩
          rw [hs1, hs2, hs3, hr, e1, e2, e3]
        · refine ⟨v1, v2, v3, [], ?_, hq1, hq2, hq3, hv1, hv2, hv3, Or.inl rfl⟩
          rw [hs1, hs2, hs3, e1, e2, e3, List.append_nil]
      · rw [hp2] at hg3
        simp [getline] at hg3
    · rw [hp1] at hg2
      simp [getline] at hg2
  · rw [if_neg hr] at h
    exact absurd h (by simp)

/-- Witness for C3 at the concrete author script written for the sample
identity. -/
theorem read_author_script_strict_witness :
    read_author_script_content witScript = some (witName, witEmail, witDate) ∧
    ∃ q1 q2 q3 t,
      witScript = "GIT_AUTHOR_NAME=".data ++ q1 ++ '\n' ::
          ("GIT_AUTHOR_EMAIL=".data ++ q2 ++ '\n' ::
           ("GIT_AUTHOR_DATE=".data ++ q3 ++ t)) ∧
      sq_dequote q1 = some witName ∧ sq_dequote q2 = some witEmail ∧
      sq_dequote q3 = some witDate ∧
      '\n' ∉ q1 ∧ '\n' ∉ q2 ∧ '\n' ∉ q3 ∧ (t = [] ∨ t = ['\n']) :=
  ⟨by decide, read_author_script_strict witScript witName witEmail witDate (by decide)⟩

theorem digitsVal_nil : digitsVal [] = 0 := rfl

theorem strtol10_no_digits (s : List Char) (h : noLeadingDigits s = true) :
    strtol10 s = 0 := by
  rw [noLeadingDigits] at h
  rw [strtol10]
  cases hd : s.dropWhile isspaceC with
  | nil => rfl
  | cons c r =>
    rw [hd] at h
    dsimp only at h ⊢
    by_cases hc : c = '-' ∨ c = '+'
    · rw [if_pos hc] at h
      cases r with
      | nil =>
        rcases hc with hc | hc <;> subst hc <;> simp [digitsVal]
      | cons e2 r2 =>
        have he : e2.isDigit = false := by simpa using h
        rcases hc with hc | hc <;> subst hc <;>
          simp [List.takeWhile_cons, he, digitsVal]
    · rw [if_neg hc] at h
      have hcd : c.isDigit = false := by simpa using h
      push_neg at hc
      obtain ⟨hc1, hc2⟩ := hc
      rw [if_neg hc1, if_neg hc2, List.takeWhile_cons, if_neg (by simp [hcd])]
      rfl

/-- C10: am_load does not fail on malformed counter contents: a `next` file
whose trimmed text has no leading decimal digits loads as counter 0 (strtol
conversion of no digits), and only an I/O error while reading the counter
file is fatal. -/
theorem am_load_malformed_counter (st : AmState) (f : LoadFiles) (s : List Char)
    (h1 : f.next = ReadRes.ok s)
    (h2 : noLeadingDigits (rtrim s) = true)
    (h3 : f.last ≠ ReadRes.ioerr)
    (h4 : f.authorScript = none)
    (h5 : f.finalCommit ≠ ReadRes.ioerr) :
    (∃ st2, am_load st f = some st2 ∧ st2.cur = 0) ∧
    (∀ (f2 : LoadFiles) (s2 : List Char), f2.last = ReadRes.ok s2 →
       noLeadingDigits (rtrim s2) = true → f2.next ≠ ReadRes.ioerr →
       f2.authorScript = none → f2.finalCommit ≠ ReadRes.ioerr →
       ∃ st3, am_load st f2 = some st3 ∧ st3.last = 0) ∧
    (∀ g : LoadFiles, g.next = ReadRes.ioerr → am_load st g = none) := by
  refine ⟨?_, ?_, ?_⟩
  · obtain ⟨lsb, hlsb⟩ : ∃ c, read_state_file f.last true = some c := by
      cases hl : f.last with
      | missing => exact ⟨[], rfl⟩
      | ok c => exact ⟨rtrim c, rfl⟩
      | ioerr => exact absurd hl h3
    obtain ⟨m, hm⟩ : ∃ c, read_state_file f.finalCommit false = some c := by
      cases hl : f.finalCommit with
      | missing => exact ⟨[], rfl⟩
      | ok c => exact ⟨c, rfl⟩
      | ioerr => exact absurd hl h5
    have hst2 : am_load st f =
        some { st with cur := strtol10 (rtrim s), last := strtol10 lsb, msg := m } := by
      rw [am_load, h1, h4, hlsb, hm]
      rfl
    exact ⟨_, hst2, strtol10_no_digits _ h2⟩
  · intro f2 s2 g1 g2 g3 g4 g5
    obtain ⟨nsb, hnsb⟩ : ∃ c, read_state_file f2.next true = some c := by
      cases hl : f2.next with
      | missing => exact ⟨[], rfl⟩
      | ok c => exact ⟨rtrim c, rfl⟩
      | ioerr => exact absurd hl g3
    obtain ⟨m, hm⟩ : ∃ c, read_state_file f2.finalCommit false = some c := by
      cases hl : f2.finalCommit with
      | missing => exact ⟨[], rfl⟩
      | ok c => exact ⟨c, rfl⟩
      | ioerr => exact absurd hl g5
    have hst3 : am_load st f2 =
        some { st with cur := strtol10 nsb, last := strtol10 (rtrim s2), msg := m } := by
      rw [am_load, g1, g4, hnsb, hm]
      rfl
    exact ⟨_, hst3, strtol10_no_digits _ g2⟩
  · intro g hg
    rw [am_load, hg]
    rfl

/-- Witness for C10 at a `next` file containing the text abc. -/
theorem am_load_malformed_counter_witness :
    badLoad.next = ReadRes.ok "abc".data ∧
    noLeadingDigits (rtrim "abc".data) = true ∧
    badLoad.last ≠ ReadRes.ioerr ∧
    badLoad.authorScript = none ∧
    badLoad.finalCommit ≠ ReadRes.ioerr ∧
    ((∃ st2, am_load (cleanState 1 1 4) badLoad = some st2 ∧ st2.cur = 0) ∧
     (∀ (f2 : LoadFiles) (s2 : List Char), f2.last = ReadRes.ok s2 →
        noLeadingDigits (rtrim s2) = true → f2.next ≠ ReadRes.ioerr →
        f2.authorScript = none → f2.finalCommit ≠ ReadRes.ioerr →
        ∃ st3, am_load (cleanState 1 1 4) f2 = some st3 ∧ st3.last = 0) ∧
     (∀ g : LoadFiles, g.next = ReadRes.ioerr →
        am_load (cleanState 1 1 4) g = none)) :=
  ⟨rfl, by decide, by decide, rfl, by decide,
   am_load_malformed_counter (cleanState 1 1 4) badLoad "abc".data
     rfl (by decide) (by decide) rfl (by decide)⟩

theorem am_run_done (env : Env) (st : AmState) (disk : Disk) (h : st.last < st.cur) :
    am_run env st disk = .success (am_destroy disk) := by
  rw [am_run.eq_def, dif_pos h]

theorem am_run_missing (env : Env) (st : AmState) (disk : Disk)
    (h : ¬ st.last < st.cur) (hp : env.patchExists st.cur = false) :
    am_run env st disk = am_run env (am_next st disk).1 (am_next st disk).2 := by
  rw [am_run.eq_def, dif_neg h, dif_pos hp]

theorem am_run_parse_fatal (env : Env) (st : AmState) (disk : Disk) (m : List Char)
    (h : ¬ st.last < st.cur) (hp : env.patchExists st.cur = true)
    (hf : parse_patch env st.cur st = .fatal m) :
    am_run env st disk = .fatal m disk := by
  rw [am_run.eq_def, dif_neg h, dif_neg (by simp [hp]), hf]

theorem am_run_skip (env : Env) (st : AmState) (disk : Disk)
    (h : ¬ st.last < st.cur) (hp : env.patchExists st.cur = true)
    (hf : parse_patch env st.cur st = .skip) :
    am_run env st disk = am_run env (am_next st disk).1 (am_next st disk).2 := by
  rw [am_run.eq_def, dif_neg h, dif_neg (by simp [hp]), hf]

theorem am_run_applyfail (env : Env) (st : AmState) (disk : Disk)
    (n e d m : List Char)
    (h : ¬ st.last < st.cur) (hp : env.patchExists st.cur = true)
    (hf : parse_patch env st.cur st = .ok n e d m)
    (ha : env.applyOk st.cur = false) :
    am_run env st disk =
      .applyFailed (zeroPadInt st.prec st.cur) (firstline m)
        (decide (env.amworkdir = some false))
        { disk with authorScript := some (author_script_text n e d),
                    finalCommit := some m } := by
  rw [am_run.eq_def, dif_neg h, dif_neg (by simp [hp]), hf]
  dsimp only
  rw [if_pos ha]
  rfl

theorem am_run_commitfail (env : Env) (st : AmState) (disk : Disk)
    (n e d m : List Char)
    (h : ¬ st.last < st.cur) (hp : env.patchExists st.cur = true)
    (hf : parse_patch env st.cur st = .ok n e d m)
    (ha : env.applyOk st.cur = true) (hc : env.commitOk st.cur = false) :
    am_run env st disk =
      .fatal commitFailMsg
        { disk with authorScript := some (author_script_text n e d),
                    finalCommit := some m } := by
  rw [am_run.eq_def, dif_neg h, dif_neg (by simp [hp]), hf]
  dsimp only
  rw [if_neg (by simp [ha]), if_pos hc]

theorem am_run_commit_step (env : Env) (st : AmState) (disk : Disk)
    (n e d m : List Char)
    (h : ¬ st.last < st.cur) (hp : env.patchExists st.cur = true)
    (hf : parse_patch env st.cur st = .ok n e d m)
    (ha : env.applyOk st.cur = true) (hc : env.commitOk st.cur = true) :
    am_run env st disk =
      am_run env
        (am_next { st with author_name := n, author_email := e,
                           author_date := d, msg := m }
          { disk with authorScript := some (author_script_text n e d),
                      finalCommit := some m,
                      commits := disk.commits ++ [⟨n, e, d, m⟩] }).1
        (am_next { st with author_name := n, author_email := e,
                           author_date := d, msg := m }
          { disk with authorScript := some (author_script_text n e d),
                      finalCommit := some m,
                      commits := disk.commits ++ [⟨n, e, d, m⟩] }).2 := by
  rw [am_run.eq_def, dif_neg h, dif_neg (by simp [hp]), hf]
  dsimp only
  rw [if_neg (by simp [ha]), if_neg (by simp [hc])]

theorem am_next_clean_fst (c last : Int) (prec : Nat) (disk : Disk) :
    (am_next (cleanState c last prec) disk).1 = cleanState (c + 1) last prec := rfl

theorem am_next_clean_snd (c last : Int) (prec : Nat) (disk : Disk) :
    (am_next (cleanState c last prec) disk).2 =
      { disk with next := some (intToChars (c + 1)),
                  authorScript := none, finalCommit := none } := rfl

theorem am_next_after_parse_fst (c last : Int) (prec : Nat) (n e d m : List Char)
    (disk : Disk) :
    (am_next ({ cleanState c last prec with
                author_name := n
                author_email := e
                author_date := d
                msg := m }) disk).1 = cleanState (c + 1) last prec := rfl

theorem am_next_after_parse_snd (c last : Int) (prec : Nat) (n e d m : List Char)
    (disk : Disk) :
    (am_next ({ cleanState c last prec with
                author_name := n
                author_email := e
                author_date := d
                msg := m }) disk).2 =
      { disk with next := some (intToChars (c + 1)),
                  authorScript := none, finalCommit := none } := rfl

theorem passesAt_unpack (env : Env) (j : Int) (h : passesAt env j = true) :
    env.patchExists j = true ∧ env.mailinfoOk j = true ∧
    (extractAt env j).name ≠ sentinelName ∧
    is_empty_file (env.bodySize j) = false ∧
    (env.msgFile j).isSome = true ∧ env.applyOk j = true ∧
    env.commitOk j = true := by
  rw [passesAt] at h
  simp only [Bool.and_eq_true, Bool.not_eq_true', beq_eq_false_iff_ne] at h
  tauto

theorem parse_patch_clean_ok (env : Env) (k c last : Int) (prec : Nat)
    (m : List Char)
    (hm : env.mailinfoOk k = true)
    (hs : (extractAt env k).name ≠ sentinelName)
    (he : is_empty_file (env.bodySize k) = false)
    (hmf : env.msgFile k = some m) :
    parse_patch env k (cleanState c last prec) =
      .ok (extractAt env k).name (extractAt env k).email (extractAt env k).date
        (env.stripspace ((extractAt env k).msg ++ '\n' :: '\n' :: m)) := by
  rw [parse_patch, if_neg (by simp [hm])]
  dsimp only [cleanState]
  rw [show extract_fold ⟨[], [], [], []⟩ (toLines (env.info k)) = extractAt env k from rfl]
  rw [if_neg hs, if_neg (by simp [he]), hmf]

theorem parse_patch_clean_skip (env : Env) (k c last : Int) (prec : Nat)
    (hm : env.mailinfoOk k = true)
    (hs : (extractAt env k).name = sentinelName) :
    parse_patch env k (cleanState c last prec) = .skip := by
  rw [parse_patch, if_neg (by simp [hm])]
  dsimp only [cleanState]
  rw [show extract_fold ⟨[], [], [], []⟩ (toLines (env.info k)) = extractAt env k from rfl]
  rw [if_pos hs]

theorem parse_patch_clean_empty (env : Env) (k c last : Int) (prec : Nat)
    (hm : env.mailinfoOk k = true)
    (hs : (extractAt env k).name ≠ sentinelName)
    (he : is_empty_file (env.bodySize k) = true) :
    parse_patch env k (cleanState c last prec) = .fatal emptyPatchMsg := by
  rw [parse_patch, if_neg (by simp [hm])]
  dsimp only [cleanState]
  rw [show extract_fold ⟨[], [], [], []⟩ (toLines (env.info k)) = extractAt env k from rfl]
  rw [if_neg hs, if_pos (by simp [he])]

theorem successCommits_stop (env : Env) (c k : Int) (h : k ≤ c) :
    successCommits env c k = [] := by
  rw [successCommits, show (k - c).toNat = 0 by omega]
  rfl

theorem successCommits_step (env : Env) (c k : Int) (h : c < k) :
    successCommits env c k =
      (if passesAt env c then [commitAt env c] else []) ++
        successCommits env (c + 1) k := by
  rw [successCommits, successCommits, show (k - c).toNat = (k - (c + 1)).toNat + 1 by omega]
  rfl

theorem am_reach (env : Env) (prec : Nat) (last k : Int)
    (hkl : k ≤ last)
    (hp : env.patchExists k = true) (hm : env.mailinfoOk k = true)
    (hs : (extractAt env k).name ≠ sentinelName)
    (he : is_empty_file (env.bodySize k) = false)
    (hmf : (env.msgFile k).isSome = true)
    (ha : env.applyOk k = false) :
    ∀ n c disk, (k - c).toNat = n → c ≤ k →
      disk.dirExists = true → disk.next = some (intToChars c) →
      (∀ j, c ≤ j → j < k → handledAt env j = true) →
      am_run env (cleanState c last prec) disk =
        .applyFailed (zeroPadInt prec k) (firstline (composedMsg env k))
          (decide (env.amworkdir = some false))
          { dirExists := true, next := some (intToChars k), last := disk.last,
            authorScript := some (author_script_text (extractAt env k).name
              (extractAt env k).email (extractAt env k).date),
            finalCommit := some (composedMsg env k),
            commits := disk.commits ++ successCommits env c k } := by
  intro n
  induction n with
  | zero =>
    intro c disk hn hck hdir hnext hrange
    have hck2 : k = c := by omega
    subst hck2
    obtain ⟨m, hmf2⟩ := Option.isSome_iff_exists.mp hmf
    obtain ⟨de, nx, ls, as2, fc, cm⟩ := disk
    simp only at hdir hnext
    subst hdir
    subst hnext
    rw [am_run_applyfail env (cleanState k last prec) _
        (extractAt env k).name (extractAt env k).email (extractAt env k).date
        (env.stripspace ((extractAt env k).msg ++ '\n' :: '\n' :: m))
        (by dsimp [cleanState]; omega) hp
        (parse_patch_clean_ok env k k last prec m hm hs he hmf2) ha]
    rw [composedMsg, hmf2, successCommits_stop env k k le_rfl, List.append_nil]
    rfl
  | succ n ih =>
    intro c disk hn hck hdir hnext hrange
    have hck2 : c < k := by omega
    have hcl : ¬ (cleanState c last prec).last < (cleanState c last prec).cur := by
      dsimp [cleanState]; omega
    have hc := hrange c le_rfl hck2
    by_cases hpc : env.patchExists c = true
    · rw [handledAt] at hc
      rcases Bool.or_eq_true_iff.mp hc with hab | hc
      · rcases Bool.or_eq_true_iff.mp hab with ha2 | hb2
        · rw [Bool.not_eq_true'] at ha2
          rw [hpc] at ha2
          exact absurd ha2 (by simp)
        · obtain ⟨h4, hsen⟩ := (Bool.and_eq_true _ _).mp hb2
          obtain ⟨_, hmc⟩ := (Bool.and_eq_true _ _).mp h4
          have hsc : (extractAt env c).name = sentinelName := eq_of_beq hsen
          rw [am_run_skip env (cleanState c last prec) disk hcl hpc
              (parse_patch_clean_skip env c c last prec hmc hsc)]
          rw [am_next_clean_fst, am_next_clean_snd]
          rw [ih (c + 1)
              { disk with next := some (intToChars (c + 1)), authorScript := none, finalCommit := none }
              (by omega) (by omega) hdir rfl
              (fun j h1 h2 => hrange j (by omega) h2)]
          have hpass : passesAt env c = false := by
            rw [passesAt]
            simp [hsc]
          rw [successCommits_step env c k hck2, hpass]
          simp
      · obtain ⟨hp1, hm1, hs1, he1, hmf1, ha1, hc1⟩ := passesAt_unpack env c hc
        obtain ⟨m0, hm0⟩ := Option.isSome_iff_exists.mp hmf1
        rw [am_run_commit_step env (cleanState c last prec) disk
            (extractAt env c).name (extractAt env c).email (extractAt env c).date
            (env.stripspace ((extractAt env c).msg ++ '\n' :: '\n' :: m0))
            hcl hp1 (parse_patch_clean_ok env c c last prec m0 hm1 hs1 he1 hm0)
            ha1 hc1]
        rw [am_next_after_parse_fst, am_next_after_parse_snd]
        rw [ih (c + 1)
            { disk with next := some (intToChars (c + 1)), authorScript := none, finalCommit := none, commits := disk.commits ++ [⟨(extractAt env c).name, (extractAt env c).email, (extractAt env c).date, env.stripspace ((extractAt env c).msg ++ '\n' :: '\n' :: m0)⟩] }
            (by omega) (by omega) hdir rfl
            (fun j h1 h2 => hrange j (by omega) h2)]
        rw [successCommits_step env c k hck2, hc]
        simp [commitAt, composedMsg, hm0]
    · have hpc2 : env.patchExists c = false := by
        cases hx : env.patchExists c with
        | false => rfl
        | true => exact absurd hx hpc
      rw [am_run_missing env (cleanState c last prec) disk hcl hpc2]
      rw [am_next_clean_fst, am_next_clean_snd]
      rw [ih (c + 1)
          { disk with next := some (intToChars (c + 1)), authorScript := none, finalCommit := none }
          (by omega) (by omega) hdir rfl
          (fun j h1 h2 => hrange j (by omega) h2)]
      have hpass : passesAt env c = false := by
        rw [passesAt]
        simp [hpc2]
      rw [successCommits_step env c k hck2, hpass]
      simp

theorem am_run_success_gone (env : Env) :
    ∀ n (st : AmState) (disk d2 : Disk),
      (st.last + 1 - st.cur).toNat = n →
      am_run env st disk = .success d2 → d2.dirExists = false := by
  intro n
  induction n with
  | zero =>
    intro st disk d2 hn h
    have hlt : st.last < st.cur := by omega
    rw [am_run_done env st disk hlt] at h
    injection h with h2
    rw [← h2]
    rfl
  | succ n ih =>
    intro st disk d2 hn h
    by_cases hlt : st.last < st.cur
    · rw [am_run_done env st disk hlt] at h
      injection h with h2
      rw [← h2]
      rfl
    · by_cases hpc : env.patchExists st.cur = false
      · rw [am_run_missing env st disk hlt hpc] at h
        exact ih _ _ _ (by simp [am_next]; omega) h
      · have hpc2 : env.patchExists st.cur = true := by
          cases hx : env.patchExists st.cur with
          | false => exact absurd hx hpc
          | true => rfl
        cases hpr : parse_patch env st.cur st with
        | fatal m =>
          rw [am_run_parse_fatal env st disk m hlt hpc2 hpr] at h
          exact absurd h (by simp)
        | skip =>
          rw [am_run_skip env st disk hlt hpc2 hpr] at h
          exact ih _ _ _ (by simp [am_next]; omega) h
        | ok nn ee dd mm =>
          by_cases hap : env.applyOk st.cur = false
          · rw [am_run_applyfail env st disk nn ee dd mm hlt hpc2 hpr hap] at h
            exact absurd h (by simp)
          · have hap2 : env.applyOk st.cur = true := by
              cases hx : env.applyOk st.cur with
              | false => exact absurd hx hap
              | true => rfl
            by_cases hco : env.commitOk st.cur = false
            · rw [am_run_commitfail env st disk nn ee dd mm hlt hpc2 hpr hap2 hco] at h
              exact absurd h (by simp)
            · have hco2 : env.commitOk st.cur = true := by
                cases hx : env.commitOk st.cur with
                | false => exact absurd hx hco
                | true => rfl
              rw [am_run_commit_step env st disk nn ee dd mm hlt hpc2 hpr hap2 hco2] at h
              exact ih _ _ _ (by simp [am_next]; omega) h

/-- C1 (amended): if git-apply fails on the current patch, am_run halts with
exit code 128, reporting the padded patch number and the first line of the
composed message, printing the retained-patch-location hint exactly when
advice.amworkdir is configured false; the session directory survives with
`next` still naming the current patch, the author script and message file
for it persisted (the author script well formed), and exactly the commits of
the previously successful patches created. -/
theorem am_run_apply_failure_halt (env : Env) (prec : Nat) (last k c : Int)
    (disk : Disk)
    (hkl : k ≤ last)
    (hp : env.patchExists k = true) (hm : env.mailinfoOk k = true)
    (hs : (extractAt env k).name ≠ sentinelName)
    (he : is_empty_file (env.bodySize k) = false)
    (hmf : (env.msgFile k).isSome = true)
    (ha : env.applyOk k = false)
    (hck : c ≤ k)
    (hdir : disk.dirExists = true)
    (hnext : disk.next = some (intToChars c))
    (hrange : ∀ j, c ≤ j → j < k → handledAt env j = true)
    (hn1 : '\n' ∉ (extractAt env k).name)
    (hn2 : '\n' ∉ (extractAt env k).email)
    (hn3 : '\n' ∉ (extractAt env k).date) :
    am_run env (cleanState c last prec) disk =
      .applyFailed (zeroPadInt prec k) (firstline (composedMsg env k))
        (decide (env.amworkdir = some false))
        { dirExists := true, next := some (intToChars k), last := disk.last,
          authorScript := some (author_script_text (extractAt env k).name
            (extractAt env k).email (extractAt env k).date),
          finalCommit := some (composedMsg env k),
          commits := disk.commits ++ successCommits env c k } ∧
    exitCode (am_run env (cleanState c last prec) disk) = 128 ∧
    read_author_script_content (author_script_text (extractAt env k).name
        (extractAt env k).email (extractAt env k).date) =
      some ((extractAt env k).name, (extractAt env k).email, (extractAt env k).date) := by
  have h1 := am_reach env prec last k hkl hp hm hs he hmf ha (k - c).toNat c disk
    rfl hck hdir hnext hrange
  refine ⟨h1, ?_, author_roundtrip _ _ _ hn1 hn2 hn3⟩
  rw [h1]
  rfl

/-- Witness for the amended C1: one failing patch in a fresh one-patch
session. -/
theorem am_run_apply_failure_halt_witness :
    env0.applyOk 1 = false ∧ disk0.dirExists = true ∧
    (am_run env0 (cleanState 1 1 4) disk0 =
      .applyFailed (zeroPadInt 4 1) (firstline (composedMsg env0 1))
        (decide (env0.amworkdir = some false))
        { dirExists := true, next := some (intToChars 1), last := disk0.last,
          authorScript := some (author_script_text (extractAt env0 1).name
            (extractAt env0 1).email (extractAt env0 1).date),
          finalCommit := some (composedMsg env0 1),
          commits := disk0.commits ++ successCommits env0 1 1 } ∧
     exitCode (am_run env0 (cleanState 1 1 4) disk0) = 128 ∧
     read_author_script_content (author_script_text (extractAt env0 1).name
        (extractAt env0 1).email (extractAt env0 1).date) =
      some ((extractAt env0 1).name, (extractAt env0 1).email, (extractAt env0 1).date)) :=
  ⟨rfl, rfl,
   am_run_apply_failure_halt env0 4 1 1 1 disk0 (by decide) (by decide) (by decide)
     (by decide) (by decide) (by decide) (by decide) (by decide) rfl rfl
     (fun j h1 h2 => absurd (lt_of_le_of_lt h1 h2) (lt_irrefl 1))
     (by decide) (by decide) (by decide)⟩

/-- C1 counterexample to the claim as stated: with advice.amworkdir unset
(the default configuration) the halt after a failed application does not
print the retained-patch-location hint (the hint flag in the result is
false), because the source prints it only when the configuration is present
and false. -/
theorem am_run_apply_failure_hint_missing :
    env0.amworkdir = none ∧
    am_run env0 (cleanState 1 1 4) disk0 =
      .applyFailed (zeroPadInt 4 1) (firstline (composedMsg env0 1)) false
        { dirExists := true, next := some (intToChars 1), last := disk0.last,
          authorScript := some (author_script_text (extractAt env0 1).name
            (extractAt env0 1).email (extractAt env0 1).date),
          finalCommit := some (composedMsg env0 1),
          commits := disk0.commits ++ successCommits env0 1 1 } := by
  constructor
  · rfl
  · have h := am_reach env0 4 1 1 (by decide) (by decide) (by decide) (by decide)
      (by decide) (by decide) (by decide) 0 1 disk0 (by decide) (by decide) rfl rfl
      (fun j h1 h2 => absurd (lt_of_le_of_lt h1 h2) (lt_irrefl 1))
    exact h

/-- C4: after am_next runs for the current index k, the in-memory pointer is
k+1, the persisted `next` file contains the decimal text of k+1, neither the
author script nor the message file remains on disk, and the `next` write is
the first event, before the two unlink events. -/
theorem am_next_spec (st : AmState) (disk : Disk) :
    (am_next st disk).1.cur = st.cur + 1 ∧
    (am_next st disk).2.next = some (intToChars (st.cur + 1)) ∧
    (am_next st disk).2.authorScript = none ∧
    (am_next st disk).2.finalCommit = none ∧
    am_next_events st = [FsEv.writeNext (st.cur + 1), FsEv.unlinkAuthorScript,
      FsEv.unlinkFinalCommit] ∧
    (am_next st disk).2 = (am_next_events st).foldl applyEv disk :=
  ⟨rfl, rfl, rfl, rfl, rfl, rfl⟩

/-- C5: when the loop reaches cur greater than last, am_run destroys the
session directory and reports success with exit code 0; any successful run
leaves no session directory on disk. -/
theorem am_run_terminal_destroy (env : Env) (st : AmState) (disk : Disk)
    (h : st.last < st.cur) :
    am_run env st disk = .success (am_destroy disk) ∧
    exitCode (am_run env st disk) = 0 ∧
    (am_destroy disk).dirExists = false ∧
    ∀ (env2 : Env) (st2 : AmState) (disk2 d2 : Disk),
      am_run env2 st2 disk2 = .success d2 → d2.dirExists = false := by
  refine ⟨am_run_done env st disk h, ?_, rfl, ?_⟩
  · rw [am_run_done env st disk h]
    rfl
  · intro env2 st2 disk2 d2 hh
    exact am_run_success_gone env2 _ st2 disk2 d2 rfl hh

/-- Witness for C5 with a completed two-patch session. -/
theorem am_run_terminal_destroy_witness :
    (cleanState 3 2 4).last < (cleanState 3 2 4).cur ∧
    (am_run env0 (cleanState 3 2 4) disk0 = .success (am_destroy disk0) ∧
     exitCode (am_run env0 (cleanState 3 2 4) disk0) = 0 ∧
     (am_destroy disk0).dirExists = false ∧
     ∀ (env2 : Env) (st2 : AmState) (disk2 d2 : Disk),
       am_run env2 st2 disk2 = .success d2 → d2.dirExists = false) :=
  ⟨by dsimp [cleanState]; omega,
   am_run_terminal_destroy env0 (cleanState 3 2 4) disk0 (by dsimp [cleanState]; omega)⟩

set_option maxRecDepth 40000 in
/-- C6: an empty extracted patch body makes am_run die with the diagnostic
that names the skip and abort recovery paths, leaving the disk unchanged (in
particular no commit is created for the patch). -/
theorem am_run_empty_patch_fatal (env : Env) (prec : Nat) (k last : Int)
    (disk : Disk)
    (hk : k ≤ last)
    (hp : env.patchExists k = true) (hm : env.mailinfoOk k = true)
    (hs : (extractAt env k).name ≠ sentinelName)
    (he : is_empty_file (env.bodySize k) = true) :
    am_run env (cleanState k last prec) disk = .fatal emptyPatchMsg disk ∧
    exitCode (am_run env (cleanState k last prec) disk) = 128 ∧
    "git am --skip".data <:+: emptyPatchMsg ∧
    "git am --abort".data <:+: emptyPatchMsg := by
  have h1 := am_run_parse_fatal env (cleanState k last prec) disk emptyPatchMsg
    (by dsimp [cleanState]; omega) hp
    (parse_patch_clean_empty env k k last prec hm hs he)
  refine ⟨h1, ?_, by decide, by decide⟩
  rw [h1]
  rfl

set_option maxRecDepth 40000 in
/-- Witness for C6 with a zero-size body file. -/
theorem am_run_empty_patch_fatal_witness :
    is_empty_file (envE.bodySize 1) = true ∧
    (am_run envE (cleanState 1 1 4) disk0 = .fatal emptyPatchMsg disk0 ∧
     exitCode (am_run envE (cleanState 1 1 4) disk0) = 128 ∧
     "git am --skip".data <:+: emptyPatchMsg ∧
     "git am --abort".data <:+: emptyPatchMsg) :=
  ⟨rfl, am_run_empty_patch_fatal envE 4 1 1 disk0 (by decide) (by decide)
    (by decide) (by decide) rfl⟩

/-- C7: a patch whose extracted author name is the internal-data sentinel
produces no commit and the sequencer still advances: the loop continues from
the next index with `next` persisted as k+1 and the commit list unchanged. -/
theorem am_run_sentinel_skip (env : Env) (prec : Nat) (k last : Int)
    (disk : Disk)
    (hk : k ≤ last)
    (hp : env.patchExists k = true) (hm : env.mailinfoOk k = true)
    (hs : (extractAt env k).name = sentinelName) :
    am_run env (cleanState k last prec) disk =
      am_run env (cleanState (k + 1) last prec)
        { disk with next := some (intToChars (k + 1)),
                    authorScript := none, finalCommit := none } ∧
    ({ disk with next := some (intToChars (k + 1)),
                 authorScript := none, finalCommit := none } : Disk).commits
      = disk.commits := by
  constructor
  · rw [am_run_skip env (cleanState k last prec) disk
        (by dsimp [cleanState]; omega) hp
        (parse_patch_clean_skip env k k last prec hm hs)]
    rw [am_next_clean_fst, am_next_clean_snd]
  · rfl

/-- Witness for C7 on a sentinel patch. -/
theorem am_run_sentinel_skip_witness :
    (extractAt envS 1).name = sentinelName ∧
    (am_run envS (cleanState 1 1 4) disk0 =
      am_run envS (cleanState 2 1 4)
        { disk0 with next := some (intToChars 2),
                     authorScript := none, finalCommit := none } ∧
     ({ disk0 with next := some (intToChars 2),
                   authorScript := none, finalCommit := none } : Disk).commits
       = disk0.commits) :=
  ⟨by decide, am_run_sentinel_skip envS 4 1 1 disk0 (by decide) (by decide)
    (by decide) (by decide)⟩

/-- C8 (counterexample to the claim): a line made solely of characters from
the allowed header ranges but containing no colon at all is accepted by
is_email, because the per-character loop runs off the end of the line without
failing; so the heuristic returns true for a file whose only header line has
no colon, where the claim requires false. -/
theorem is_email_missing_colon_accepted :
    is_email "abc".data = true ∧ ':' ∉ "abc".data := by
  constructor
  · rfl
  · decide

/-- C9: a missing stripped-body file is treated exactly like an empty one:
is_empty_file is true on ENOENT, so am_run dies with the same diagnostic and
creates no commit. -/
theorem am_run_missing_body_fatal (env : Env) (prec : Nat) (k last : Int)
    (disk : Disk)
    (hk : k ≤ last)
    (hp : env.patchExists k = true) (hm : env.mailinfoOk k = true)
    (hs : (extractAt env k).name ≠ sentinelName)
    (hb : env.bodySize k = none) :
    is_empty_file none = true ∧
    am_run env (cleanState k last prec) disk = .fatal emptyPatchMsg disk ∧
    exitCode (am_run env (cleanState k last prec) disk) = 128 := by
  have he : is_empty_file (env.bodySize k) = true := by rw [hb]; rfl
  have h1 := am_run_parse_fatal env (cleanState k last prec) disk emptyPatchMsg
    (by dsimp [cleanState]; omega) hp
    (parse_patch_clean_empty env k k last prec hm hs he)
  refine ⟨rfl, h1, ?_⟩
  rw [h1]
  rfl

/-- Witness for C9 with an absent body file. -/
theorem am_run_missing_body_fatal_witness :
    envM.bodySize 1 = none ∧
    (is_empty_file none = true ∧
     am_run envM (cleanState 1 1 4) disk0 = .fatal emptyPatchMsg disk0 ∧
     exitCode (am_run envM (cleanState 1 1 4) disk0) = 128) :=
  ⟨rfl, am_run_missing_body_fatal envM 4 1 1 disk0 (by decide) (by decide)
    (by decide) (by decide) rfl⟩

end GitAm
